import Mathlib

/-!
Verification of the eps2 repository: a Turso/SQLite-FTS backed text-search
web service (`text_search_webui_TURSO.py`) and its batch indexer
(`searchable_text_db_efficient_TURSO.py`).

Strings are embedded as `List Char`; Python's case-insensitive regex
matching of an escaped (hence literal) pattern is embedded as
character-wise comparison after lowercasing.
-/

namespace Eps2

/-- Lowercase a string character-wise; embeds the case folding used by
Python's `re.IGNORECASE` on a `re.escape`d (literal) pattern. -/
def lcs (s : List Char) : List Char := s.map Char.toLower

/-- `MatchAt q s i` states that the case-insensitive literal pattern `q`
matches `s` at position `i` (as `re` reports it: `start = i`,
`end = i + q.length`). -/
def MatchAt (q s : List Char) (i : Nat) : Prop :=
  i + q.length ≤ s.length ∧ lcs ((s.drop i).take q.length) = lcs q

instance (q s : List Char) (i : Nat) : Decidable (MatchAt q s i) := by
  unfold MatchAt; infer_instance

/-- Boolean test for a case-insensitive match at the head of `s`. -/
def ciHeadMatch (q s : List Char) : Bool :=
  decide (q.length ≤ s.length ∧ lcs (s.take q.length) = lcs q)

/-- Embeds Python `s.replace(p, r)` (replace all, left to right, the
replacement text is not rescanned; an empty pattern matches at every gap). -/
def replAll (p r s : List Char) : List Char :=
  match s with
  | [] => if p.length = 0 then r else []
  | c :: cs =>
    if p.length = 0 then r ++ c :: replAll p r cs
    else if (c :: cs).take p.length = p then r ++ replAll p r ((c :: cs).drop p.length)
    else c :: replAll p r cs
termination_by s.length
decreasing_by
  all_goals (simp only [List.length_drop, List.length_cons]; omega)

/-- Embeds Python `s.replace(p, r, 1)` (replace the first occurrence only). -/
def replFirst (p r : List Char) : List Char → List Char
  | [] => if p.length = 0 then r else []
  | c :: cs =>
    if p.length = 0 then r ++ c :: cs
    else if (c :: cs).take p.length = p then r ++ (c :: cs).drop p.length
    else c :: replFirst p r cs

/-- Embeds `query.replace('"', '""')` (line 38 of the web UI). -/
def escapedQuery (q : List Char) : List Char := replAll ['"'] ['"', '"'] q

/-- Embeds lines 37-41 of the web UI: a query containing a space character
is wrapped in double quotes with embedded double quotes doubled; any other
query is passed through unchanged. -/
def quoteQuery (q : List Char) : List Char :=
  if ' ' ∈ q then '"' :: (escapedQuery q ++ ['"']) else q

/-- Spec-side formulation of quote escaping: every double-quote character is
doubled, all other characters are kept. Used to check `escapedQuery`
(which goes through the `str.replace` embedding) against the spec's words. -/
def doubleQuotesSpec : List Char → List Char
  | [] => []
  | c :: cs => if c = '"' then '"' :: '"' :: doubleQuotesSpec cs else c :: doubleQuotesSpec cs

/-- Embeds `list(pattern.finditer(full_content))` restricted to what the
code uses: the position of the first (leftmost) case-insensitive match of
the literal pattern `q` in `s`, if any (lines 90-96 of the web UI). -/
def firstMatch (q : List Char) : List Char → Option Nat
  | [] => if ciHeadMatch q [] then some 0 else none
  | c :: cs =>
    if ciHeadMatch q (c :: cs) then some 0
    else (firstMatch q cs).map (· + 1)

/-- The three-character ellipsis marker. -/
def dots : List Char := ("...").toList

/-- Embeds lines 94-103 of the web UI: the snippet around the first match
(window of `L` characters before the match start and after the match end,
clamped to the content, with ellipses marking truncation), or the first
`L*2` characters when there is no match.  Nat subtraction realizes the
source's `max(0, match.start() - snippet_length)`. -/
def makeSnippet (q content : List Char) (L : Nat) : List Char :=
  match firstMatch q content with
  | some s =>
    let st := s - L
    let en := min content.length (s + q.length + L)
    let core := (content.drop st).take (en - st)
    let core2 := if 0 < st then dots ++ core else core
    if en < content.length then core2 ++ dots else core2
  | none => content.take (L * 2) ++ (if L * 2 < content.length then dots else [])

/-- The opening highlight markup emitted by the replacement template
`<span class="highlight">\g<0></span>` (lines 106-111 of the web UI). -/
def openTag : List Char := ("<span class=\"highlight\">").toList

/-- The closing highlight markup. -/
def closeTag : List Char := ("</span>").toList

/-- Embeds the scan performed by `re.sub` on the snippet: a left-to-right
pass that, at each position, either wraps the case-insensitive match
starting there (flag `true`, resuming after the match) or keeps the single
unmatched character (flag `false`).  An empty pattern matches at every gap,
as in Python. -/
def subPieces (q s : List Char) : List (Bool × List Char) :=
  match s with
  | [] => if q.length = 0 then [(true, [])] else []
  | c :: cs =>
    if q.length = 0 then (true, ([] : List Char)) :: (false, [c]) :: subPieces q cs
    else if ciHeadMatch q (c :: cs) then
      (true, (c :: cs).take q.length) :: subPieces q ((c :: cs).drop q.length)
    else (false, [c]) :: subPieces q cs
termination_by s.length
decreasing_by
  all_goals (simp only [List.length_drop, List.length_cons]; omega)

/-- Renders the scan's pieces, wrapping the matched ones in the highlight
markup; `renderPieces (subPieces q s)` is the output of the `re.sub` call. -/
def renderPieces (ps : List (Bool × List Char)) : List Char :=
  (ps.map (fun p => if p.1 then openTag ++ p.2 ++ closeTag else p.2)).flatten

/-- The highlighted snippet: embeds the `re.sub` call of lines 106-111. -/
def reSub (q s : List Char) : List Char := renderPieces (subPieces q s)

/-- The start positions (indices into `s`) of the occurrences wrapped by
the `re.sub` scan. -/
def wrappedStarts (q s : List Char) : List Nat :=
  match s with
  | [] => []
  | c :: cs =>
    if q.length = 0 then 0 :: (wrappedStarts q cs).map (· + 1)
    else if ciHeadMatch q (c :: cs) then
      0 :: (wrappedStarts q ((c :: cs).drop q.length)).map (· + q.length)
    else (wrappedStarts q cs).map (· + 1)
termination_by s.length
decreasing_by
  all_goals (simp only [List.length_drop, List.length_cons]; omega)

/-- Start positions of the `true` pieces inside a piece list (offsets
accumulate by piece length). -/
def pieceStarts : List (Bool × List Char) → List Nat
  | [] => []
  | p :: ps =>
    if p.1 then 0 :: (pieceStarts ps).map (· + p.2.length)
    else (pieceStarts ps).map (· + p.2.length)

/-- The three search modes offered by the web UI form. -/
inductive Mode where
  | content
  | filename
  | all
deriving DecidableEq

/-- The `search_type` string of a mode. -/
def modeField : Mode → List Char
  | .content => ("content").toList
  | .filename => ("filename").toList
  | .all => ("all").toList

/-- `fts_query_sql` of lines 43-51. -/
def ftsQuerySql : Mode → List Char
  | .content => ("content:?").toList
  | .filename => ("filename:?").toList
  | .all => ("text_files_fts MATCH ?").toList

/-- Text of the SQL f-string (lines 53-65) before the `WHERE` expression. -/
def sqlHead : List Char :=
  ("\n                SELECT\n                    tf.filepath,\n                    tf.filename,\n                    tf.content, -- Select the FULL content\n                    tf.image_url, -- Select the image URL\n                    text_files_fts.rank\n                FROM text_files_fts\n                JOIN text_files AS tf ON text_files_fts.rowid = tf.id\n                WHERE ").toList

/-- Text of the SQL f-string after the `WHERE` expression. -/
def sqlTail : List Char :=
  ("\n                ORDER BY text_files_fts.rank\n                LIMIT 1000\n            ").toList

/-- The SQL f-string of lines 53-65 with the `WHERE` expression spliced in. -/
def buildSql (w : List Char) : List Char := sqlHead ++ w ++ sqlTail

/-- The SQL text and bind-parameter tuple handed to `db_client.execute`. -/
structure ExecCall where
  sql : List Char
  args : List (List Char)
deriving DecidableEq

/-- The SQL text executed for modes `content`/`filename`, built exactly as
lines 68-81 of the web UI build it: `q_params = fts_query_sql.replace("?",
quoted_query)` is spliced into the first `?` of the SQL by `sql.replace("?",
q_params[0], 1)`, and line 81's replace of `"text_files_fts MATCH ?"` by
itself is kept as the no-op it is in the source.  For these modes the
`WHERE` expression of line 62 is the literal `"text_files_fts MATCH ?"`. -/
def notAllSqlText (m : Mode) (q : List Char) : List Char :=
  replAll (("text_files_fts MATCH ?").toList) (("text_files_fts MATCH ?").toList)
    (replFirst (("?").toList) (replAll (("?").toList) (quoteQuery q) (ftsQuerySql m))
      (buildSql (("text_files_fts MATCH ?").toList)))

/-- Embeds lines 37-82 of the web UI: the SQL text and parameter tuple the
code passes to `db_client.execute` for each mode.  For `all` the SQL keeps
its `?` placeholder and the match expression travels in the parameter tuple
(lines 49-51, 76-77); for `content`/`filename` the SQL is `notAllSqlText`
and the tuple carries `match_clause = f"{search_type}:{quoted_query}"`
(lines 79-82). -/
def searchExec (m : Mode) (q : List Char) : ExecCall :=
  match m with
  | .all =>
    { sql := buildSql (ftsQuerySql Mode.all)
      args := [("content:").toList ++ quoteQuery q
        ++ (" OR filename:").toList ++ quoteQuery q] }
  | m =>
    { sql := notAllSqlText m q
      args := [modeField m ++ (":").toList ++ quoteQuery q] }

/-- A row of the joined query result: the selected columns of lines 54-59. -/
structure Row where
  filepath : List Char
  filename : List Char
  content : List Char
  image_url : Option (List Char)
  rank : Int
deriving DecidableEq

/-- A search result record as appended on lines 113-119. -/
structure SearchResult where
  file_path : List Char
  file_name : List Char
  snippet : List Char
  rank : Int
  image_url : Option (List Char)
deriving DecidableEq

/-- Per-row post-processing of lines 86-119: snippet extraction followed by
highlighting, packaged into a result record. -/
def rowToResult (q : List Char) (L : Nat) (r : Row) : SearchResult :=
  { file_path := r.filepath
    file_name := r.filename
    snippet := reSub q (makeSnippet q r.content L)
    rank := r.rank
    image_url := r.image_url }

/-- Rank comparison used by the query's `ORDER BY text_files_fts.rank`. -/
def rowLE (a b : Row) : Prop := a.rank ≤ b.rank

instance : DecidableRel rowLE := fun a b => inferInstanceAs (Decidable (a.rank ≤ b.rank))

instance : IsTotal Row rowLE := ⟨fun a b => Int.le_total a.rank b.rank⟩

instance : IsTrans Row rowLE := ⟨fun _ _ _ h1 h2 => le_trans h1 h2⟩

/-- Models the datastore's evaluation of the two result-shaping clauses in
the SQL text of lines 53-65 — `ORDER BY text_files_fts.rank` (ascending)
and `LIMIT 1000` — applied to the rows matching the match expression. -/
def runQuery (rows : List Row) : List Row :=
  (List.insertionSort rowLE rows).take 1000

/-- Embeds `search_database` (lines 29-125) downstream of the execute call:
`db` is the outcome of `db_client.execute` — an exception (caught on lines
123-125, returning `[]`) or the matching rows, which are then shaped by
`runQuery` and post-processed row by row. -/
def searchDatabase (q : List Char) (L : Nat) (db : Except (List Char) (List Row)) :
    List SearchResult :=
  match db with
  | .error _ => []
  | .ok rows => (runQuery rows).map (rowToResult q L)

/-- The JSON body of a `/search` response. -/
inductive RespBody where
  | errorBody (msg : List Char)
  | searchBody (query : List Char) (results : List SearchResult) (count : Nat)
      (searchType : Mode)
deriving DecidableEq

/-- An HTTP response: status code and JSON body. -/
structure Response where
  status : Nat
  body : RespBody
deriving DecidableEq

/-- Embeds the `/search` route (lines 134-157): 500 when the global client
is unavailable, 400 when the query is empty or missing, otherwise 200 with
the results of `searchDatabase`. -/
def searchRoute (dbAvailable : Bool) (query : List Char) (L : Nat) (m : Mode)
    (db : Except (List Char) (List Row)) : Response :=
  if !dbAvailable then
    { status := 500, body := .errorBody (("Database connection not available").toList) }
  else if query = [] then
    { status := 400, body := .errorBody (("Query is required").toList) }
  else
    let results := searchDatabase query L db
    { status := 200, body := .searchBody query results results.length m }

/-- A row of the `text_files` content table, as inserted by the indexer. -/
structure Document where
  filename : List Char
  filepath : List Char
  content : List Char
  image_url : Option (List Char)
deriving DecidableEq

/-- Models the `INSERT OR IGNORE INTO text_files ...` of lines 151-154 of
the indexer together with the `filepath TEXT NOT NULL UNIQUE` constraint of
lines 50-58: the insert is dropped when a row with the same `filepath`
already exists. -/
def insertOrIgnore (t : List Document) (d : Document) : List Document :=
  if t.any (fun r => decide (r.filepath = d.filepath)) then t else t ++ [d]

/-- Embeds the per-file loop of `index_text_files` (lines 130-160) at the
datastore level: each discovered file's row is inserted with
insert-or-ignore, in order. -/
def indexTextFiles (t : List Document) (files : List Document) : List Document :=
  files.foldl insertOrIgnore t

end Eps2

namespace Eps2

/-! Lemmas about the `str.replace` embedding. -/

theorem replAll_single_of_not_mem (a : Char) (r : List Char) :
    ∀ (u : List Char), a ∉ u → replAll [a] r u = u := by
  intro u
  induction u with
  | nil => intro _; rw [replAll]; simp
  | cons c cs ih =>
    intro h
    have hc : ¬c = a := fun hca => h (hca ▸ List.mem_cons_self c cs)
    have hne : ¬((c :: cs).take ([a]).length = [a]) := by
      simp [List.take_succ_cons, hc]
    rw [replAll, if_neg (by simp : ¬(([a]).length = 0)), if_neg hne]
    rw [ih (fun hm => h (List.mem_cons_of_mem c hm))]

theorem replAll_single_end (a : Char) (r : List Char) :
    ∀ (u : List Char), a ∉ u → replAll [a] r (u ++ [a]) = u ++ r := by
  intro u
  induction u with
  | nil =>
    intro _
    have h1 : replAll [a] r [] = [] := by rw [replAll]; simp
    rw [List.nil_append, replAll.eq_def]
    simp [h1]
  | cons c cs ih =>
    intro h
    have hc : ¬c = a := fun hca => h (hca ▸ List.mem_cons_self c cs)
    have hne : ¬((c :: (cs ++ [a])).take ([a]).length = [a]) := by
      simp [List.take_succ_cons, hc]
    rw [List.cons_append, replAll, if_neg (by simp : ¬(([a]).length = 0)), if_neg hne]
    rw [ih (fun hm => h (List.mem_cons_of_mem c hm))]
    simp

theorem replFirst_single_split (a : Char) (r : List Char) :
    ∀ (u v : List Char), a ∉ u → replFirst [a] r (u ++ a :: v) = u ++ r ++ v := by
  intro u v
  induction u with
  | nil =>
    intro _
    rw [List.nil_append, replFirst]
    rw [if_neg (by simp : ¬(([a]).length = 0)), if_pos (by simp)]
    simp
  | cons c cs ih =>
    intro h
    have hc : ¬c = a := fun hca => h (hca ▸ List.mem_cons_self c cs)
    have hne : ¬((c :: (cs ++ a :: v)).take ([a]).length = [a]) := by
      simp [List.take_succ_cons, hc]
    rw [List.cons_append, replFirst, if_neg (by simp : ¬(([a]).length = 0)), if_neg hne]
    rw [ih (fun hm => h (List.mem_cons_of_mem c hm))]
    simp

theorem replAll_self_aux (p : List Char) (hp : ¬p.length = 0) :
    ∀ (n : Nat) (s : List Char), s.length ≤ n → replAll p p s = s := by
  intro n
  induction n with
  | zero =>
    intro s hs
    have : s = [] := List.eq_nil_of_length_eq_zero (by omega)
    subst this
    rw [replAll, if_neg hp]
  | succ n ih =>
    intro s hs
    match s with
    | [] => rw [replAll, if_neg hp]
    | c :: cs =>
      rw [replAll, if_neg hp]
      by_cases htake : (c :: cs).take p.length = p
      · rw [if_pos htake]
        rw [ih _ (by simp only [List.length_drop, List.length_cons]
                     simp only [List.length_cons] at hs
                     omega)]
        conv_rhs => rw [← List.take_append_drop p.length (c :: cs)]
        rw [htake]
      · rw [if_neg htake]
        rw [ih cs (by simp only [List.length_cons] at hs; omega)]

theorem replAll_self (p : List Char) (hp : p ≠ []) (s : List Char) :
    replAll p p s = s := by
  have hlen : ¬p.length = 0 := by
    simpa [List.length_eq_zero] using hp
  exact replAll_self_aux p hlen s.length s (Nat.le_refl _)

theorem escapedQuery_eq_spec (q : List Char) : escapedQuery q = doubleQuotesSpec q := by
  induction q with
  | nil =>
    rw [escapedQuery, replAll]
    simp [doubleQuotesSpec]
  | cons c cs ih =>
    rw [escapedQuery, replAll, doubleQuotesSpec]
    by_cases hc : c = '"'
    · subst hc
      rw [if_neg (by simp), if_pos (by simp)]
      simp only [List.length_singleton, List.drop_succ_cons, List.drop_zero]
      rw [← escapedQuery, ih]
      rfl
    · rw [if_neg (by simp), if_neg (by simp [List.take_succ_cons, hc]), if_neg hc]
      rw [← escapedQuery, ih]

theorem mem_doubleQuotesSpec {c : Char} (hc : c ≠ '"') :
    ∀ q : List Char, c ∈ doubleQuotesSpec q ↔ c ∈ q := by
  intro q
  induction q with
  | nil => simp [doubleQuotesSpec]
  | cons d ds ih =>
    rw [doubleQuotesSpec]
    by_cases hd : d = '"'
    · subst hd
      rw [if_pos rfl]
      simp [List.mem_cons, ih, hc]
    · rw [if_neg hd]
      simp [ih]

theorem not_mem_quoteQuery {c : Char} (hc : c ≠ '"') {q : List Char} (hq : c ∉ q) :
    c ∉ quoteQuery q := by
  rw [quoteQuery]
  by_cases hsp : ' ' ∈ q
  · rw [if_pos hsp]
    intro hmem
    rcases List.mem_cons.mp hmem with h | h
    · exact hc h
    · rcases List.mem_append.mp h with h | h
      · rw [escapedQuery_eq_spec] at h
        exact hq ((mem_doubleQuotesSpec hc q).mp h)
      · exact hc (List.mem_singleton.mp h)
  · rw [if_neg hsp]; exact hq

/-! Lemmas relating `MatchAt`, `ciHeadMatch` and `firstMatch`. -/

theorem ciHeadMatch_iff (q s : List Char) : ciHeadMatch q s = true ↔ MatchAt q s 0 := by
  rw [ciHeadMatch, MatchAt, decide_eq_true_iff]
  rw [List.drop_zero, Nat.zero_add]

theorem ciHeadMatch_length_le {q s : List Char} (h : ciHeadMatch q s = true) :
    q.length ≤ s.length := by
  have := ((ciHeadMatch_iff q s).mp h).1
  omega

theorem matchAt_succ_cons (q : List Char) (c : Char) (cs : List Char) (i : Nat) :
    MatchAt q (c :: cs) (i + 1) ↔ MatchAt q cs i := by
  rw [MatchAt, MatchAt, List.drop_succ_cons, List.length_cons]
  exact and_congr (by omega) Iff.rfl

theorem matchAt_drop (q s : List Char) (k i : Nat) (hk : k ≤ s.length) :
    MatchAt q (s.drop k) i ↔ MatchAt q s (k + i) := by
  rw [MatchAt, MatchAt, List.drop_drop, List.length_drop]
  exact and_congr (by omega) Iff.rfl

theorem firstMatch_matchAt {q : List Char} :
    ∀ {s : List Char} {i : Nat}, firstMatch q s = some i → MatchAt q s i := by
  intro s
  induction s with
  | nil =>
    intro i h
    rw [firstMatch] at h
    by_cases hh : ciHeadMatch q [] = true
    · rw [if_pos hh] at h
      cases h
      exact (ciHeadMatch_iff q []).mp hh
    · rw [if_neg hh] at h
      cases h
  | cons c cs ih =>
    intro i h
    rw [firstMatch] at h
    by_cases hh : ciHeadMatch q (c :: cs) = true
    · rw [if_pos hh] at h
      cases h
      exact (ciHeadMatch_iff q (c :: cs)).mp hh
    · rw [if_neg hh] at h
      rcases Option.map_eq_some'.mp h with ⟨j, hj, rfl⟩
      exact (matchAt_succ_cons q c cs j).mpr (ih hj)

theorem firstMatch_least {q : List Char} :
    ∀ {s : List Char} {i : Nat}, firstMatch q s = some i →
      ∀ j, j < i → ¬MatchAt q s j := by
  intro s
  induction s with
  | nil =>
    intro i h j hj
    rw [firstMatch] at h
    by_cases hh : ciHeadMatch q [] = true
    · rw [if_pos hh] at h; cases h; omega
    · rw [if_neg hh] at h; cases h
  | cons c cs ih =>
    intro i h j hj
    rw [firstMatch] at h
    by_cases hh : ciHeadMatch q (c :: cs) = true
    · rw [if_pos hh] at h; cases h; omega
    · rw [if_neg hh] at h
      rcases Option.map_eq_some'.mp h with ⟨i', hi', rfl⟩
      match j with
      | 0 => exact fun hm => hh ((ciHeadMatch_iff q (c :: cs)).mpr hm)
      | j + 1 =>
        intro hm
        exact ih hi' j (by omega) ((matchAt_succ_cons q c cs j).mp hm)

theorem firstMatch_none {q : List Char} :
    ∀ {s : List Char}, firstMatch q s = none → ∀ i, ¬MatchAt q s i := by
  intro s
  induction s with
  | nil =>
    intro h i hm
    rw [firstMatch] at h
    by_cases hh : ciHeadMatch q [] = true
    · rw [if_pos hh] at h; cases h
    · rw [if_neg hh] at h
      have hi : i = 0 := by
        have := hm.1
        simp only [List.length_nil] at this
        omega
      exact hh ((ciHeadMatch_iff q []).mpr (hi ▸ hm))
  | cons c cs ih =>
    intro h i hm
    rw [firstMatch] at h
    by_cases hh : ciHeadMatch q (c :: cs) = true
    · rw [if_pos hh] at h; cases h
    · rw [if_neg hh] at h
      have h' : firstMatch q cs = none := Option.map_eq_none'.mp h
      match i with
      | 0 => exact hh ((ciHeadMatch_iff q (c :: cs)).mpr hm)
      | i + 1 => exact ih h' i ((matchAt_succ_cons q c cs i).mp hm)

theorem firstMatch_isSome {q s : List Char} {i : Nat} (hm : MatchAt q s i) :
    ∃ j, firstMatch q s = some j := by
  cases h : firstMatch q s with
  | none => exact absurd hm (firstMatch_none h i)
  | some j => exact ⟨j, rfl⟩

theorem firstMatch_eq_of_least {q s : List Char} {i : Nat} (hm : MatchAt q s i)
    (hleast : ∀ j, j < i → ¬MatchAt q s j) : firstMatch q s = some i := by
  rcases firstMatch_isSome hm with ⟨j, hj⟩
  have hmj := firstMatch_matchAt hj
  rcases Nat.lt_trichotomy i j with h | h | h
  · exact absurd hm (firstMatch_least hj i h)
  · exact h ▸ hj
  · exact absurd hmj (hleast j h)

/-! Lemmas about the highlight scan (`subPieces`, `wrappedStarts`). -/

theorem ciHeadMatch_take {q s : List Char} (h : ciHeadMatch q s = true) :
    lcs (s.take q.length) = lcs q := by
  have := (ciHeadMatch_iff q s).mp h
  rw [MatchAt, List.drop_zero] at this
  exact this.2

theorem subPieces_flatten_aux (q : List Char) :
    ∀ (n : Nat) (s : List Char), s.length ≤ n →
      ((subPieces q s).map Prod.snd).flatten = s := by
  intro n
  induction n with
  | zero =>
    intro s hs
    have : s = [] := List.eq_nil_of_length_eq_zero (by omega)
    subst this
    rw [subPieces]
    by_cases h0 : q.length = 0
    · rw [if_pos h0]; simp
    · rw [if_neg h0]; simp
  | succ n ih =>
    intro s hs
    match s with
    | [] =>
      rw [subPieces]
      by_cases h0 : q.length = 0
      · rw [if_pos h0]; simp
      · rw [if_neg h0]; simp
    | c :: cs =>
      rw [subPieces]
      by_cases h0 : q.length = 0
      · rw [if_pos h0]
        simp only [List.map_cons, List.flatten_cons, List.nil_append,
          List.singleton_append]
        rw [ih cs (by simp only [List.length_cons] at hs; omega)]
      · rw [if_neg h0]
        by_cases hm : ciHeadMatch q (c :: cs) = true
        · rw [if_pos hm]
          simp only [List.map_cons, List.flatten_cons]
          rw [ih ((c :: cs).drop q.length)
            (by simp only [List.length_drop, List.length_cons]
                simp only [List.length_cons] at hs
                omega)]
          exact List.take_append_drop q.length (c :: cs)
        · rw [if_neg hm]
          simp only [List.map_cons, List.flatten_cons, List.singleton_append]
          rw [ih cs (by simp only [List.length_cons] at hs; omega)]

theorem subPieces_flatten (q s : List Char) :
    ((subPieces q s).map Prod.snd).flatten = s :=
  subPieces_flatten_aux q s.length s (Nat.le_refl _)

theorem subPieces_true_aux (q : List Char) :
    ∀ (n : Nat) (s : List Char), s.length ≤ n →
      ∀ p ∈ subPieces q s, p.1 = true → lcs p.2 = lcs q := by
  intro n
  induction n with
  | zero =>
    intro s hs p hp _
    have : s = [] := List.eq_nil_of_length_eq_zero (by omega)
    subst this
    rw [subPieces] at hp
    by_cases h0 : q.length = 0
    · rw [if_pos h0] at hp
      have : p = (true, ([] : List Char)) := List.mem_singleton.mp hp
      subst this
      have : q = [] := List.length_eq_zero.mp h0
      subst this
      rfl
    · rw [if_neg h0] at hp
      cases hp
  | succ n ih =>
    intro s hs p hp htrue
    match s with
    | [] =>
      rw [subPieces] at hp
      by_cases h0 : q.length = 0
      · rw [if_pos h0] at hp
        have : p = (true, ([] : List Char)) := List.mem_singleton.mp hp
        subst this
        have : q = [] := List.length_eq_zero.mp h0
        subst this
        rfl
      · rw [if_neg h0] at hp
        cases hp
    | c :: cs =>
      rw [subPieces] at hp
      by_cases h0 : q.length = 0
      · rw [if_pos h0] at hp
        rcases List.mem_cons.mp hp with h | h
        · subst h
          have : q = [] := List.length_eq_zero.mp h0
          subst this
          rfl
        · rcases List.mem_cons.mp h with h | h
          · subst h; cases htrue
          · exact ih cs (by simp only [List.length_cons] at hs; omega) p h htrue
      · rw [if_neg h0] at hp
        by_cases hm : ciHeadMatch q (c :: cs) = true
        · rw [if_pos hm] at hp
          rcases List.mem_cons.mp hp with h | h
          · subst h
            exact ciHeadMatch_take hm
          · exact ih ((c :: cs).drop q.length)
              (by simp only [List.length_drop, List.length_cons]
                  simp only [List.length_cons] at hs
                  omega) p h htrue
        · rw [if_neg hm] at hp
          rcases List.mem_cons.mp hp with h | h
          · subst h; cases htrue
          · exact ih cs (by simp only [List.length_cons] at hs; omega) p h htrue

theorem subPieces_true (q s : List Char) :
    ∀ p ∈ subPieces q s, p.1 = true → lcs p.2 = lcs q :=
  subPieces_true_aux q s.length s (Nat.le_refl _)

theorem wrappedStarts_matchAt_aux (q : List Char) (hq : ¬q.length = 0) :
    ∀ (n : Nat) (s : List Char), s.length ≤ n →
      ∀ j ∈ wrappedStarts q s, MatchAt q s j := by
  intro n
  induction n with
  | zero =>
    intro s hs j hj
    have : s = [] := List.eq_nil_of_length_eq_zero (by omega)
    subst this
    rw [wrappedStarts] at hj
    cases hj
  | succ n ih =>
    intro s hs j hj
    match s with
    | [] => rw [wrappedStarts] at hj; cases hj
    | c :: cs =>
      rw [wrappedStarts, if_neg hq] at hj
      by_cases hm : ciHeadMatch q (c :: cs) = true
      · rw [if_pos hm] at hj
        rcases List.mem_cons.mp hj with h | h
        · subst h
          exact (ciHeadMatch_iff q (c :: cs)).mp hm
        · rcases List.mem_map.mp h with ⟨j', hj', rfl⟩
          have hk : q.length ≤ (c :: cs).length := ciHeadMatch_length_le hm
          have hdrop : MatchAt q ((c :: cs).drop q.length) j' :=
            ih ((c :: cs).drop q.length)
              (by simp only [List.length_drop, List.length_cons]
                  simp only [List.length_cons] at hs
                  omega) j' hj'
          have := (matchAt_drop q (c :: cs) q.length j' hk).mp hdrop
          rwa [Nat.add_comm] at this
      · rw [if_neg hm] at hj
        rcases List.mem_map.mp hj with ⟨j', hj', rfl⟩
        exact (matchAt_succ_cons q c cs j').mpr
          (ih cs (by simp only [List.length_cons] at hs; omega) j' hj')

theorem wrappedStarts_matchAt (q s : List Char) (hq : ¬q.length = 0) :
    ∀ j ∈ wrappedStarts q s, MatchAt q s j :=
  wrappedStarts_matchAt_aux q hq s.length s (Nat.le_refl _)

theorem wrappedStarts_cover_aux (q : List Char) (hq : ¬q.length = 0) :
    ∀ (n : Nat) (s : List Char), s.length ≤ n →
      ∀ i, MatchAt q s i → ∃ j ∈ wrappedStarts q s, j ≤ i ∧ i < j + q.length := by
  intro n
  induction n with
  | zero =>
    intro s hs i hm
    have : s = [] := List.eq_nil_of_length_eq_zero (by omega)
    subst this
    have := hm.1
    simp only [List.length_nil] at this
    omega
  | succ n ih =>
    intro s hs i hm
    match s with
    | [] =>
      have := hm.1
      simp only [List.length_nil] at this
      omega
    | c :: cs =>
      rw [wrappedStarts, if_neg hq]
      by_cases hh : ciHeadMatch q (c :: cs) = true
      · rw [if_pos hh]
        by_cases hi : i < q.length
        · exact ⟨0, List.mem_cons_self _ _, by omega, by omega⟩
        · have hk : q.length ≤ (c :: cs).length := ciHeadMatch_length_le hh
          have hdec : i = q.length + (i - q.length) := by omega
          have hdrop : MatchAt q ((c :: cs).drop q.length) (i - q.length) := by
            rw [matchAt_drop q (c :: cs) q.length (i - q.length) hk]
            rwa [← hdec]
          rcases ih ((c :: cs).drop q.length)
            (by simp only [List.length_drop, List.length_cons]
                simp only [List.length_cons] at hs
                omega) (i - q.length) hdrop with ⟨j', hj', hle, hlt⟩
          refine ⟨j' + q.length, List.mem_cons_of_mem _ ?_, by omega, by omega⟩
          exact List.mem_map.mpr ⟨j', hj', rfl⟩
      · rw [if_neg hh]
        match i with
        | 0 => exact absurd ((ciHeadMatch_iff q (c :: cs)).mpr hm) hh
        | i + 1 =>
          have hm' := (matchAt_succ_cons q c cs i).mp hm
          rcases ih cs (by simp only [List.length_cons] at hs; omega) i hm'
            with ⟨j', hj', hle, hlt⟩
          refine ⟨j' + 1, List.mem_map.mpr ⟨j', hj', rfl⟩, by omega, by omega⟩

theorem wrappedStarts_cover (q s : List Char) (hq : ¬q.length = 0) :
    ∀ i, MatchAt q s i → ∃ j ∈ wrappedStarts q s, j ≤ i ∧ i < j + q.length :=
  wrappedStarts_cover_aux q hq s.length s (Nat.le_refl _)

theorem pieceStarts_subPieces_aux (q : List Char) (hq : ¬q.length = 0) :
    ∀ (n : Nat) (s : List Char), s.length ≤ n →
      pieceStarts (subPieces q s) = wrappedStarts q s := by
  intro n
  induction n with
  | zero =>
    intro s hs
    have : s = [] := List.eq_nil_of_length_eq_zero (by omega)
    subst this
    rw [subPieces, if_neg hq, wrappedStarts, pieceStarts]
  | succ n ih =>
    intro s hs
    match s with
    | [] => rw [subPieces, if_neg hq, wrappedStarts, pieceStarts]
    | c :: cs =>
      rw [subPieces, if_neg hq, wrappedStarts, if_neg hq]
      by_cases hm : ciHeadMatch q (c :: cs) = true
      · rw [if_pos hm, if_pos hm, pieceStarts]
        simp only [if_pos rfl]
        have hlen : ((c :: cs).take q.length).length = q.length := by
          rw [List.length_take]
          exact Nat.min_eq_left (ciHeadMatch_length_le hm)
        rw [hlen, ih ((c :: cs).drop q.length)
          (by simp only [List.length_drop, List.length_cons]
              simp only [List.length_cons] at hs
              omega)]
        simp
      · rw [if_neg hm, if_neg hm, pieceStarts]
        simp only [Bool.false_eq_true, if_false, List.length_singleton]
        rw [ih cs (by simp only [List.length_cons] at hs; omega)]

theorem pieceStarts_subPieces (q s : List Char) (hq : ¬q.length = 0) :
    pieceStarts (subPieces q s) = wrappedStarts q s :=
  pieceStarts_subPieces_aux q hq s.length s (Nat.le_refl _)

/-! Lemmas about the SQL text and parameter tuple built by `searchExec`. -/

set_option maxRecDepth 8000 in
set_option maxHeartbeats 1000000 in
theorem searchExec_content_eq (q : List Char) :
    searchExec Mode.content q =
      { sql := sqlHead ++ (("text_files_fts MATCH content:").toList ++ quoteQuery q)
          ++ sqlTail
        args := [("content:").toList ++ quoteQuery q] } := by
  have hq1 : ("?").toList = ['?'] := by decide
  have h1 : ftsQuerySql Mode.content = ("content:").toList ++ ['?'] := by decide
  have h2 : ('?') ∉ ("content:").toList := by decide
  have h3 : buildSql (("text_files_fts MATCH ?").toList)
      = (sqlHead ++ ("text_files_fts MATCH ").toList) ++ '?' :: sqlTail := by
    rw [buildSql]
    have he : ("text_files_fts MATCH ?").toList
        = ("text_files_fts MATCH ").toList ++ '?' :: ([] : List Char) := by decide
    rw [he]
    simp
  have h4 : ('?') ∉ sqlHead ++ ("text_files_fts MATCH ").toList := by decide
  have h5 : (("text_files_fts MATCH ?").toList : List Char) ≠ [] := by decide
  have h6 : ("text_files_fts MATCH ").toList ++ ("content:").toList
      = ("text_files_fts MATCH content:").toList := by decide
  have h7 : modeField Mode.content ++ (":").toList = ("content:").toList := by decide
  show ExecCall.mk (notAllSqlText Mode.content q)
      [modeField Mode.content ++ (":").toList ++ quoteQuery q] = _
  rw [notAllSqlText, hq1, h1]
  rw [replAll_single_end '?' (quoteQuery q) _ h2]
  rw [h3, replFirst_single_split '?' _ _ sqlTail h4]
  rw [replAll_self (("text_files_fts MATCH ?").toList) h5]
  simp only [ExecCall.mk.injEq]
  refine ⟨?_, ?_⟩
  · rw [← h6]
    simp [List.append_assoc]
  · rw [← h7]

set_option maxRecDepth 8000 in
set_option maxHeartbeats 1000000 in
theorem searchExec_filename_eq (q : List Char) :
    searchExec Mode.filename q =
      { sql := sqlHead ++ (("text_files_fts MATCH filename:").toList ++ quoteQuery q)
          ++ sqlTail
        args := [("filename:").toList ++ quoteQuery q] } := by
  have hq1 : ("?").toList = ['?'] := by decide
  have h1 : ftsQuerySql Mode.filename = ("filename:").toList ++ ['?'] := by decide
  have h2 : ('?') ∉ ("filename:").toList := by decide
  have h3 : buildSql (("text_files_fts MATCH ?").toList)
      = (sqlHead ++ ("text_files_fts MATCH ").toList) ++ '?' :: sqlTail := by
    rw [buildSql]
    have he : ("text_files_fts MATCH ?").toList
        = ("text_files_fts MATCH ").toList ++ '?' :: ([] : List Char) := by decide
    rw [he]
    simp
  have h4 : ('?') ∉ sqlHead ++ ("text_files_fts MATCH ").toList := by decide
  have h5 : (("text_files_fts MATCH ?").toList : List Char) ≠ [] := by decide
  have h6 : ("text_files_fts MATCH ").toList ++ ("filename:").toList
      = ("text_files_fts MATCH filename:").toList := by decide
  have h7 : modeField Mode.filename ++ (":").toList = ("filename:").toList := by decide
  show ExecCall.mk (notAllSqlText Mode.filename q)
      [modeField Mode.filename ++ (":").toList ++ quoteQuery q] = _
  rw [notAllSqlText, hq1, h1]
  rw [replAll_single_end '?' (quoteQuery q) _ h2]
  rw [h3, replFirst_single_split '?' _ _ sqlTail h4]
  rw [replAll_self (("text_files_fts MATCH ?").toList) h5]
  simp only [ExecCall.mk.injEq]
  refine ⟨?_, ?_⟩
  · rw [← h6]
    simp [List.append_assoc]
  · rw [← h7]

theorem searchExec_all_eq (q : List Char) :
    searchExec Mode.all q =
      { sql := sqlHead ++ ("text_files_fts MATCH ?").toList ++ sqlTail
        args := [("content:").toList ++ quoteQuery q
          ++ (" OR filename:").toList ++ quoteQuery q] } := rfl

set_option maxRecDepth 8000 in
set_option maxHeartbeats 1000000 in
theorem qmark_not_mem_sql {q : List Char} (hq : ('?') ∉ q) (w : List Char)
    (hw : ('?') ∉ w) : ('?') ∉ sqlHead ++ (w ++ quoteQuery q) ++ sqlTail := by
  have hh : ('?') ∉ sqlHead := by decide
  have ht : ('?') ∉ sqlTail := by decide
  have hqq : ('?') ∉ quoteQuery q := not_mem_quoteQuery (by decide) hq
  intro hmem
  rcases List.mem_append.mp hmem with h | h
  · rcases List.mem_append.mp h with h | h
    · exact hh h
    · rcases List.mem_append.mp h with h | h
      · exact hw h
      · exact hqq h
  · exact ht h

/-! Lemmas about the modelled content table (`insertOrIgnore`). -/

theorem insertOrIgnore_of_mem {t : List Document} {d : Document}
    (h : ∃ r ∈ t, r.filepath = d.filepath) : insertOrIgnore t d = t := by
  rw [insertOrIgnore, if_pos]
  rcases h with ⟨r, hr, hrp⟩
  exact List.any_eq_true.mpr ⟨r, hr, decide_eq_true hrp⟩

theorem mem_insertOrIgnore {t : List Document} {d r : Document} (h : r ∈ t) :
    r ∈ insertOrIgnore t d := by
  rw [insertOrIgnore]
  by_cases hc : t.any (fun r => decide (r.filepath = d.filepath)) = true
  · rw [if_pos hc]; exact h
  · rw [if_neg hc]; exact List.mem_append_left _ h

theorem insertOrIgnore_has (t : List Document) (d : Document) :
    ∃ r ∈ insertOrIgnore t d, r.filepath = d.filepath := by
  rw [insertOrIgnore]
  by_cases hc : t.any (fun r => decide (r.filepath = d.filepath)) = true
  · rw [if_pos hc]
    rcases List.any_eq_true.mp hc with ⟨r, hr, hrp⟩
    exact ⟨r, hr, of_decide_eq_true hrp⟩
  · rw [if_neg hc]
    exact ⟨d, List.mem_append_right _ (List.mem_singleton.mpr rfl), rfl⟩

theorem mem_indexTextFiles {r : Document} :
    ∀ (files : List Document) (t : List Document), r ∈ t → r ∈ indexTextFiles t files := by
  intro files
  induction files with
  | nil => intro t h; exact h
  | cons f fs ih =>
    intro t h
    rw [indexTextFiles, List.foldl_cons]
    exact ih _ (mem_insertOrIgnore h)

theorem indexTextFiles_has {d : Document} :
    ∀ (files : List Document) (t : List Document), d ∈ files →
      ∃ r ∈ indexTextFiles t files, r.filepath = d.filepath := by
  intro files
  induction files with
  | nil => intro t h; cases h
  | cons f fs ih =>
    intro t h
    rcases List.mem_cons.mp h with h | h
    · subst h
      rcases insertOrIgnore_has t d with ⟨r, hr, hrp⟩
      rw [indexTextFiles, List.foldl_cons]
      exact ⟨r, mem_indexTextFiles fs _ hr, hrp⟩
    · rw [indexTextFiles, List.foldl_cons]
      exact ih _ h

theorem indexTextFiles_id :
    ∀ (files : List Document) (t : List Document),
      (∀ f ∈ files, ∃ r ∈ t, r.filepath = f.filepath) → indexTextFiles t files = t := by
  intro files
  induction files with
  | nil => intro t _; rfl
  | cons f fs ih =>
    intro t h
    rw [indexTextFiles, List.foldl_cons]
    rw [insertOrIgnore_of_mem (h f (List.mem_cons_self f fs))]
    exact ih t (fun g hg => h g (List.mem_cons_of_mem f hg))

/-! The claims. -/

/-- C1 counterexample: the claim quantifies over queries containing
whitespace, but line 37 of the web UI tests only for the space character:
the query `a<TAB>b` contains whitespace (a tab) yet is passed into the
match expression unquoted and unmodified instead of being wrapped in double
quotes. -/
theorem C1_counterexample :
    ('\t') ∈ ['a', '\t', 'b'] ∧ ('\t').isWhitespace = true
      ∧ quoteQuery ['a', '\t', 'b'] = ['a', '\t', 'b']
      ∧ ¬quoteQuery ['a', '\t', 'b']
          = '"' :: (doubleQuotesSpec ['a', '\t', 'b'] ++ ['"']) := by
  have h : quoteQuery ['a', '\t', 'b'] = ['a', '\t', 'b'] := by
    rw [quoteQuery, if_neg (by decide)]
  exact ⟨by decide, by decide, h, by rw [h]; decide⟩

/-- C1 (amended): for every raw query string containing a space character,
the constructed match expression wraps the query in double quotes after
doubling every embedded double-quote character; every query containing no
space character (even one containing other whitespace) is passed unquoted
and unmodified. -/
theorem C1_query_quoting (q : List Char) :
    (' ' ∈ q → quoteQuery q = '"' :: (doubleQuotesSpec q ++ ['"']))
      ∧ (' ' ∉ q → quoteQuery q = q) := by
  constructor
  · intro h
    rw [quoteQuery, if_pos h, escapedQuery_eq_spec]
  · intro h
    rw [quoteQuery, if_neg h]

/-- C1 witness: the quoting rule applied to the space-containing query
`a b` and to the single-token query `ab`. -/
theorem C1_query_quoting_witness :
    quoteQuery (("a b").toList) = '"' :: (doubleQuotesSpec (("a b").toList) ++ ['"'])
      ∧ quoteQuery (("ab").toList) = ("ab").toList :=
  ⟨(C1_query_quoting (("a b").toList)).1 (by decide),
   (C1_query_quoting (("ab").toList)).2 (by decide)⟩

/-- C2: for content containing the query case-insensitively, with `s` the
first (leftmost) match position, the snippet is the substring of content
from `max(0, s - L)` (realized as Nat subtraction `s - L`) to
`min(content.length, s + q.length + L)`, prefixed with an ellipsis iff the
start bound is above 0 and suffixed with an ellipsis iff the end bound is
below the content length. -/
theorem C2_snippet_window (q content : List Char) (L : Nat) (s : Nat)
    (hm : MatchAt q content s) (hleast : ∀ j, j < s → ¬MatchAt q content j) :
    makeSnippet q content L =
      (if 0 < s - L then dots else [])
        ++ ((content.take (min content.length (s + q.length + L))).drop (s - L))
        ++ (if min content.length (s + q.length + L) < content.length then dots
            else []) := by
  have hfm : firstMatch q content = some s := firstMatch_eq_of_least hm hleast
  simp only [makeSnippet, hfm]
  rw [List.drop_take]
  by_cases h1 : 0 < s - L <;>
    by_cases h2 : min content.length (s + q.length + L) < content.length <;>
      simp [h1, h2, List.append_assoc]

/-- C2 witness: query `b` in content `abcb` with snippet length 1: the
first match is at position 1, the window is `[0, 3)`, and only the end is
truncated. -/
theorem C2_snippet_window_witness :
    makeSnippet (("b").toList) (("abcb").toList) 1 = ("abc...").toList := by
  have h := C2_snippet_window (("b").toList) (("abcb").toList) 1 1 (by decide)
    (fun j hj => by
      have hj0 : j = 0 := by omega
      subst hj0
      decide)
  rw [h]
  decide

/-- C3 counterexample: in content `aaa` with query `aa` the extracted
snippet is the whole content and the query occurs (case-insensitively) at
positions 0 and 1, but the `re.sub` highlighting pass wraps only the
non-overlapping scan's occurrence at position 0 — the occurrence at
position 1 receives no markup, refuting the claim that every occurrence
within the snippet is wrapped. -/
theorem C3_counterexample :
    MatchAt ['a', 'a'] ['a', 'a', 'a'] 0 ∧ MatchAt ['a', 'a'] ['a', 'a', 'a'] 1
      ∧ makeSnippet ['a', 'a'] ['a', 'a', 'a'] 5 = ['a', 'a', 'a']
      ∧ wrappedStarts ['a', 'a'] ['a', 'a', 'a'] = [0]
      ∧ reSub ['a', 'a'] ['a', 'a', 'a']
          = openTag ++ ['a', 'a'] ++ closeTag ++ ['a'] := by
  refine ⟨by decide, by decide, by decide, ?_, ?_⟩
  · simp [wrappedStarts, ciHeadMatch, lcs]
  · simp [reSub, renderPieces, subPieces, ciHeadMatch, lcs]

/-- C3 (amended): the highlighting pass applied to the snippet performs the
left-to-right non-overlapping scan of `re.sub`: stripping the markup
returns exactly the snippet, every wrapped segment is a case-insensitive
occurrence of the query, every occurrence of the query in the snippet
either starts a wrapped segment or overlaps an earlier wrapped occurrence,
the wrapped positions are exactly the `true` pieces of the rendered output,
and highlighting is applied to the extracted snippet only (occurrences of
the query elsewhere in the full content receive no markup). -/
theorem C3_highlight_scan (c : Char) (qt s : List Char) :
    (((subPieces (c :: qt) s).map Prod.snd).flatten = s)
      ∧ (∀ p ∈ subPieces (c :: qt) s, p.1 = true → lcs p.2 = lcs (c :: qt))
      ∧ (∀ j ∈ wrappedStarts (c :: qt) s, MatchAt (c :: qt) s j)
      ∧ (∀ i, MatchAt (c :: qt) s i →
          ∃ j ∈ wrappedStarts (c :: qt) s, j ≤ i ∧ i < j + (c :: qt).length)
      ∧ pieceStarts (subPieces (c :: qt) s) = wrappedStarts (c :: qt) s
      ∧ (∀ (L : Nat) (r : Row),
          (rowToResult (c :: qt) L r).snippet
            = renderPieces (subPieces (c :: qt) (makeSnippet (c :: qt) r.content L))) := by
  have hq : ¬(c :: qt).length = 0 := by simp
  exact ⟨subPieces_flatten _ s, subPieces_true _ s, wrappedStarts_matchAt _ s hq,
    wrappedStarts_cover _ s hq, pieceStarts_subPieces _ s hq, fun _ _ => rfl⟩

/-- C3 witness: in snippet `xAB` the query `ab` matches case-insensitively
at position 1 and the scan wraps it. -/
theorem C3_highlight_scan_witness :
    ∃ j ∈ wrappedStarts ['a', 'b'] (("xAB").toList),
      j ≤ 1 ∧ 1 < j + (['a', 'b'] : List Char).length :=
  (C3_highlight_scan 'a' ['b'] (("xAB").toList)).2.2.2.1 1 (by decide)

/-- C4 counterexample: the claim's "whitespace-containing query in mode
content yields a phrase-quoted match" fails for the query `a<TAB>b`: it
contains whitespace (a tab), but the match clause passed to execute is
`content:a<TAB>b`, not the phrase-quoted form. -/
theorem C4_counterexample :
    ('\t').isWhitespace = true ∧ ('\t') ∈ ['a', '\t', 'b']
      ∧ (searchExec Mode.content ['a', '\t', 'b']).args
          = [("content:").toList ++ ['a', '\t', 'b']]
      ∧ ¬(searchExec Mode.content ['a', '\t', 'b']).args
          = [("content:").toList
              ++ ('"' :: (doubleQuotesSpec ['a', '\t', 'b'] ++ ['"']))] := by
  have hquote : quoteQuery ['a', '\t', 'b'] = ['a', '\t', 'b'] := by
    rw [quoteQuery, if_neg (by decide)]
  have hargs : (searchExec Mode.content ['a', '\t', 'b']).args
      = [("content:").toList ++ ['a', '\t', 'b']] := by
    rw [searchExec_content_eq, hquote]
  exact ⟨by decide, by decide, hargs, by rw [hargs]; decide⟩

/-- C4 (amended): the full-text match expression is scoped per mode — mode
`content` executes with the single match clause `content:<quoted query>`,
mode `filename` with `filename:<quoted query>`, and mode `all` binds the
disjunction `content:<quoted query> OR filename:<quoted query>`; a
space-containing (rather than whitespace-containing) query in mode
`content` yields a phrase-quoted match restricted to the content field. -/
theorem C4_mode_scoping (q : List Char) :
    (searchExec Mode.content q).sql
        = sqlHead ++ (("text_files_fts MATCH content:").toList ++ quoteQuery q)
          ++ sqlTail
      ∧ (searchExec Mode.content q).args = [("content:").toList ++ quoteQuery q]
      ∧ (searchExec Mode.filename q).sql
        = sqlHead ++ (("text_files_fts MATCH filename:").toList ++ quoteQuery q)
          ++ sqlTail
      ∧ (searchExec Mode.filename q).args = [("filename:").toList ++ quoteQuery q]
      ∧ (searchExec Mode.all q).sql
        = sqlHead ++ ("text_files_fts MATCH ?").toList ++ sqlTail
      ∧ (searchExec Mode.all q).args
        = [("content:").toList ++ quoteQuery q
            ++ (" OR filename:").toList ++ quoteQuery q]
      ∧ (' ' ∈ q → (searchExec Mode.content q).args
          = [("content:").toList ++ ('"' :: (doubleQuotesSpec q ++ ['"']))]) := by
  refine ⟨?_, ?_, ?_, ?_, ?_, ?_, ?_⟩
  · rw [searchExec_content_eq]
  · rw [searchExec_content_eq]
  · rw [searchExec_filename_eq]
  · rw [searchExec_filename_eq]
  · rw [searchExec_all_eq]
  · rw [searchExec_all_eq]
  · intro h
    rw [searchExec_content_eq, quoteQuery, if_pos h, escapedQuery_eq_spec]

/-- C4 witness: the spec's own example — the space-containing query
`new york` in mode `content` executes with the phrase-quoted match clause
scoped to the content field. -/
theorem C4_mode_scoping_witness :
    (searchExec Mode.content (("new york").toList)).args
      = [("content:").toList
          ++ ('"' :: (doubleQuotesSpec (("new york").toList) ++ ['"']))] :=
  (C4_mode_scoping (("new york").toList)).2.2.2.2.2.2 (by decide)

/-- C5: for content that contains no case-insensitive occurrence of the
query, the snippet is the first `2 * L` characters of the content, followed
by an ellipsis iff the content is longer than `2 * L`. -/
theorem C5_no_match_fallback (q content : List Char) (L : Nat)
    (h : ∀ i, ¬MatchAt q content i) :
    makeSnippet q content L =
      content.take (2 * L) ++ (if 2 * L < content.length then dots else []) := by
  have hfm : firstMatch q content = none := by
    cases hf : firstMatch q content with
    | none => rfl
    | some j => exact absurd (firstMatch_matchAt hf) (h j)
  simp only [makeSnippet, hfm]
  rw [Nat.mul_comm L 2]

/-- C5 witness: query `xyz` does not occur in content `abc`; with snippet
length 1 the fallback snippet is the first two characters plus an
ellipsis. -/
theorem C5_no_match_fallback_witness :
    makeSnippet (("xyz").toList) (("abc").toList) 1 = ("ab...").toList := by
  have h := C5_no_match_fallback (("xyz").toList) (("abc").toList) 1
    (fun i hm => by
      have hlen : i + (("xyz").toList).length ≤ (("abc").toList).length := hm.1
      have h3 : ((("xyz").toList).length : Nat) = 3 := by decide
      have h4 : ((("abc").toList).length : Nat) = 3 := by decide
      rw [h3, h4] at hlen
      have hi : i = 0 := by omega
      subst hi
      exact absurd hm (by decide))
  rw [h]
  decide

/-- C6: for every query, snippet length and set of matching rows, the
result list built from a successful datastore call has at most 1000 entries
and is ordered by rank ascending (the `ORDER BY text_files_fts.rank` /
`LIMIT 1000` clauses of the executed SQL, modelled by `runQuery`). -/
theorem C6_order_and_cap (q : List Char) (L : Nat) (rows : List Row) :
    (searchDatabase q L (Except.ok rows)).length ≤ 1000
      ∧ List.Pairwise (fun a b : SearchResult => a.rank ≤ b.rank)
          (searchDatabase q L (Except.ok rows)) := by
  constructor
  · simp only [searchDatabase, runQuery]
    rw [List.length_map, List.length_take]
    exact Nat.min_le_left _ _
  · simp only [searchDatabase, runQuery]
    rw [List.pairwise_map]
    have hsorted : List.Pairwise rowLE (List.insertionSort rowLE rows) :=
      List.sorted_insertionSort rowLE rows
    have htake : List.Pairwise rowLE ((List.insertionSort rowLE rows).take 1000) :=
      hsorted.sublist (List.take_sublist _ _)
    exact htake.imp (fun hab => hab)

/-- C7 counterexample: when the datastore raises during a request with a
non-empty query, the server's response is HTTP 200 with a success body and
an empty result list — exactly equal to the response for an empty result —
so no error payload or status code distinguishes the failure. -/
theorem C7_counterexample :
    searchRoute true (("x").toList) 1000 Mode.content (Except.error (("boom").toList))
        = searchRoute true (("x").toList) 1000 Mode.content (Except.ok [])
      ∧ (searchRoute true (("x").toList) 1000 Mode.content
          (Except.error (("boom").toList))).status = 200
      ∧ (searchRoute true (("x").toList) 1000 Mode.content
          (Except.error (("boom").toList))).body
        = RespBody.searchBody (("x").toList) [] 0 Mode.content :=
  ⟨rfl, rfl, rfl⟩

/-- C7 (amended): a datastore error during a request with a non-empty query
is caught inside `search_database` (which returns `[]`), so the server
responds — it does not crash — but with HTTP 200 and an empty result list,
identical to the response for a genuinely empty result rather than a
distinguishing error payload or status code. -/
theorem C7_error_swallowed (ch : Char) (qt : List Char) (L : Nat) (m : Mode)
    (e : List Char) :
    searchRoute true (ch :: qt) L m (Except.error e)
        = { status := 200, body := RespBody.searchBody (ch :: qt) [] 0 m }
      ∧ searchRoute true (ch :: qt) L m (Except.error e)
        = searchRoute true (ch :: qt) L m (Except.ok []) := by
  constructor
  · simp [searchRoute, searchDatabase]
  · simp [searchRoute, searchDatabase, runQuery]

/-- C8: re-ingesting a file whose filepath already has a row leaves the
content table entirely unchanged (the insert is ignored), and ingesting the
same corpus twice yields the same table state as ingesting it once. -/
theorem C8_ingest_idempotent (t files : List Document) (d : Document) :
    ((∃ r ∈ t, r.filepath = d.filepath) → insertOrIgnore t d = t)
      ∧ indexTextFiles (indexTextFiles t files) files = indexTextFiles t files := by
  refine ⟨insertOrIgnore_of_mem, ?_⟩
  exact indexTextFiles_id files _ (fun f hf => indexTextFiles_has files t hf)

/-- C8 witness: re-inserting a document whose filepath is already present
leaves the one-row table unchanged. -/
theorem C8_ingest_idempotent_witness :
    insertOrIgnore
        [Document.mk (("a.txt").toList) (("/t/a.txt").toList) (("hello").toList) none]
        (Document.mk (("a.txt").toList) (("/t/a.txt").toList) (("hello").toList) none)
      = [Document.mk (("a.txt").toList) (("/t/a.txt").toList) (("hello").toList) none] :=
  (C8_ingest_idempotent
      [Document.mk (("a.txt").toList) (("/t/a.txt").toList) (("hello").toList) none] []
      (Document.mk (("a.txt").toList) (("/t/a.txt").toList) (("hello").toList) none)).1
    ⟨Document.mk (("a.txt").toList) (("/t/a.txt").toList) (("hello").toList) none,
      List.mem_singleton.mpr rfl, rfl⟩

/-- C9 counterexample: a request with an empty query made while the
datastore connection is unavailable is answered with HTTP 500, not the 400
the claim requires for every empty-query request — the availability check
precedes the query check. -/
theorem C9_counterexample :
    (searchRoute false [] 1000 Mode.content (Except.ok [])).status = 500
      ∧ ¬(searchRoute false [] 1000 Mode.content (Except.ok [])).status = 400 :=
  ⟨rfl, by decide⟩

/-- C9 (amended): whenever the datastore connection is unavailable the
response is HTTP 500 regardless of the query (this check comes first);
with the connection available, an empty or missing query is answered with
HTTP 400. -/
theorem C9_status_codes (q : List Char) (L : Nat) (m : Mode)
    (db : Except (List Char) (List Row)) :
    (searchRoute false q L m db).status = 500
      ∧ (searchRoute true [] L m db).status = 400 :=
  ⟨rfl, rfl⟩

/-- C10: for modes `content` and `filename` the executed SQL statement has
the match expression (mode prefix plus quoted query) spliced directly into
the SQL text — the raw query text determines the statement — leaving no
bind placeholder (no `?` remains when the query itself contains none),
while the bind-parameter tuple containing the match clause is still passed
to the execute call. -/
theorem C10_sql_splicing (q : List Char) :
    ((searchExec Mode.content q).sql
        = sqlHead ++ (("text_files_fts MATCH content:").toList ++ quoteQuery q)
          ++ sqlTail)
      ∧ ((searchExec Mode.filename q).sql
        = sqlHead ++ (("text_files_fts MATCH filename:").toList ++ quoteQuery q)
          ++ sqlTail)
      ∧ ((searchExec Mode.content q).args = [("content:").toList ++ quoteQuery q])
      ∧ ((searchExec Mode.filename q).args = [("filename:").toList ++ quoteQuery q])
      ∧ (('?') ∉ q → ('?') ∉ (searchExec Mode.content q).sql)
      ∧ (('?') ∉ q → ('?') ∉ (searchExec Mode.filename q).sql) := by
  refine ⟨?_, ?_, ?_, ?_, ?_, ?_⟩
  · rw [searchExec_content_eq]
  · rw [searchExec_filename_eq]
  · rw [searchExec_content_eq]
  · rw [searchExec_filename_eq]
  · intro h
    rw [searchExec_content_eq]
    exact qmark_not_mem_sql h _ (by decide)
  · intro h
    rw [searchExec_filename_eq]
    exact qmark_not_mem_sql h _ (by decide)

/-- C10 witness: for the query `epstein` the executed SQL for mode
`content` contains no bind placeholder at all. -/
theorem C10_sql_splicing_witness :
    ('?') ∉ (searchExec Mode.content (("epstein").toList)).sql :=
  (C10_sql_splicing (("epstein").toList)).2.2.2.2.1 (by decide)

end Eps2
